import Mathlib

/-
Verification of the QL row-block wire codec (src/yb/common/ql_rowblock.cc).

The codec serializes a block of rows as a 4-byte big-endian signed int32
row count followed by each row's column encodings, deserializes such
buffers (rejecting trailing bytes), peeks the row count, and merges two
encoded buffers byte-wise (QLRowBlock::AppendRowsData).

The CQL length codec (CQLEncodeLength / CQLDecodeNum) and the per-value
codec (QLValue::Serialize / Deserialize) live elsewhere in the repository;
they are modelled here from the spec, which pins the length field to a
4-byte big-endian signed int32 and leaves the value codec opaque.
-/

namespace YB

/-- One byte of an encoded buffer. -/
abbrev Byte := Fin 256

/-- Modelled from the spec: `CQLEncodeLength` of the external CQL codec
(declared outside these sources) stores the low 32 bits of its argument
as 4 big-endian bytes; this is the int32 count field of the wire format,
with two's-complement wrap-around on narrowing. -/
def CQLEncodeLength (n : Int) : List Byte :=
  let m := (n % 4294967296).toNat
  [⟨m / 16777216 % 256, Nat.mod_lt _ (by omega)⟩,
   ⟨m / 65536 % 256, Nat.mod_lt _ (by omega)⟩,
   ⟨m / 256 % 256, Nat.mod_lt _ (by omega)⟩,
   ⟨m % 256, Nat.mod_lt _ (by omega)⟩]

/-- Modelled from the spec: `CQLDecodeNum` with `NetworkByteOrder::Load32`
(declared outside these sources) reads 4 big-endian bytes as an unsigned
32-bit value, reinterprets it as a signed int32, and advances the cursor;
it fails when fewer than 4 bytes remain (truncated data). -/
def CQLDecodeNum32 : List Byte → Option (Int × List Byte)
  | b0 :: b1 :: b2 :: b3 :: rest =>
    let m : Nat := b0.val * 16777216 + b1.val * 65536 + b2.val * 256 + b3.val
    some (if m < 2147483648 then (m : Int) else (m : Int) - 4294967296, rest)
  | _ => none

/-- Errors surfaced by the codec: a truncated count field (network error from
`CQLDecodeNum`), a value-codec failure while decoding a row, or the
corruption error for trailing bytes. -/
inductive RBError
  | truncated
  | valueError
  | corruption
deriving DecidableEq

/-- Modelled from the spec: the external value codec (`QLValue::Serialize` /
`QLValue::Deserialize`, declared outside these sources) encodes one typed
value for a column type, and decodes one value from the front of a buffer,
consuming exactly the bytes its type dictates. It is kept abstract. -/
structure ValueCodec (T V : Type) where
  encode : T → V → List Byte
  decode : T → List Byte → Option (V × List Byte)

/-- The spec contract of the value codec: decoding the encoding of a value
yields that value back and consumes exactly the encoded bytes. -/
def CodecRoundTrip {T V : Type} (codec : ValueCodec T V) : Prop :=
  ∀ t v rest, codec.decode t (codec.encode t v ++ rest) = some (v, rest)

/-- A QL row: its schema (the ordered column types) and one value per
column, mirroring `QLRow`'s `schema_` and `values_`. -/
structure QLRow (T V : Type) where
  schema : List T
  values : List V
deriving DecidableEq

/-- `QLRow::Serialize`: each column's value encoded in schema order. -/
def QLRow.serialize {T V : Type} (codec : ValueCodec T V) (r : QLRow T V) : List Byte :=
  (List.zipWith codec.encode r.schema r.values).flatten

/-- The column-by-column loop of `QLRow::Deserialize`: one value per
schema column, in order, each consuming its own bytes. -/
def deserializeValues {T V : Type} (codec : ValueCodec T V) :
    List T → List Byte → Option (List V × List Byte)
  | [], rest => some ([], rest)
  | t :: ts, rest =>
    match codec.decode t rest with
    | none => none
    | some (v, rest1) =>
      match deserializeValues codec ts rest1 with
      | none => none
      | some (vs, rest2) => some (v :: vs, rest2)

/-- A QL row block: a private schema and an ordered row sequence,
mirroring `QLRowBlock`'s `schema_` and `rows_`. -/
structure QLRowBlock (T V : Type) where
  schema : List T
  rows : List (QLRow T V)
deriving DecidableEq

/-- `QLRowBlock::Extend`: append a new row holding one default value per
schema column (`QLRow`'s constructor sizes `values_` to the column count)
and hand that row back. `d` is the default-constructed value. -/
def QLRowBlock.extend {T V : Type} (b : QLRowBlock T V) (d : V) :
    QLRowBlock T V × QLRow T V :=
  let r : QLRow T V := ⟨b.schema, List.replicate b.schema.length d⟩
  ({ b with rows := b.rows ++ [r] }, r)

/-- `QLRowBlock::AddRow`: push a copy of the given row and return OK.
The source performs no schema-compatibility check. -/
def QLRowBlock.addRow {T V : Type} (b : QLRowBlock T V) (r : QLRow T V) :
    QLRowBlock T V × Except RBError Unit :=
  ({ b with rows := b.rows ++ [r] }, Except.ok ())

/-- `QLRowBlock::Serialize`: the 4-byte count field holding `rows_.size()`
(narrowed to 32 bits), then each row's encoding in block order. -/
def QLRowBlock.serialize {T V : Type} (codec : ValueCodec T V) (b : QLRowBlock T V) :
    List Byte :=
  CQLEncodeLength (b.rows.length : Int) ++
    (b.rows.map (QLRow.serialize codec)).flatten

/-- The deserialization loop of `QLRowBlock::Deserialize`: extend and decode
one row at a time, `max(count, 0)` times (the loop index is a signed int32
compared against the decoded count, so a negative count runs it zero times).
Each decoded row carries the block's schema, as `Extend` builds it. -/
def deserializeRows {T V : Type} (codec : ValueCodec T V) (schema : List T) :
    Nat → List Byte → Option (List (QLRow T V) × List Byte)
  | 0, rest => some ([], rest)
  | n + 1, rest =>
    match deserializeValues codec schema rest with
    | none => none
    | some (vs, rest1) =>
      match deserializeRows codec schema n rest1 with
      | none => none
      | some (rs, rest2) => some (⟨schema, vs⟩ :: rs, rest2)

/-- `QLRowBlock::Deserialize`: read the 4-byte count, decode that many rows
appending them to the block, then require the cursor to be fully drained;
leftover bytes are the corruption error. -/
def QLRowBlock.deserialize {T V : Type} (codec : ValueCodec T V) (b : QLRowBlock T V)
    (buf : List Byte) : Except RBError (QLRowBlock T V) :=
  match CQLDecodeNum32 buf with
  | none => Except.error RBError.truncated
  | some (cnt, rest) =>
    match deserializeRows codec b.schema cnt.toNat rest with
    | none => Except.error RBError.valueError
    | some (rs, rest1) =>
      if rest1 = [] then Except.ok { b with rows := b.rows ++ rs }
      else Except.error RBError.corruption

/-- `QLRowBlock::GetRowCount`: decode only the 4-byte count field and return
it through a `size_t` out-parameter (the int32 is converted to the unsigned
64-bit `size_t`, so a negative count wraps modulo 2^64). -/
def QLRowBlock.getRowCount (buf : List Byte) : Except RBError Nat :=
  match CQLDecodeNum32 buf with
  | none => Except.error RBError.truncated
  | some (cnt, _) => Except.ok ((cnt % 18446744073709551616).toNat)

/-- `QLRowBlock::AppendRowsData`: decode `src`'s count; if positive, decode
`dst`'s count; if that is zero replace `dst` with `src`, otherwise append
`src`'s row bytes to `dst` and overwrite `dst`'s first 4 bytes with the
int32 sum of the counts. Returns the status and the final `dst` bytes. -/
def QLRowBlock.appendRowsData (src dst : List Byte) :
    Except RBError Unit × List Byte :=
  match CQLDecodeNum32 src with
  | none => (Except.error RBError.truncated, dst)
  | some (srcCnt, srcRest) =>
    if 0 < srcCnt then
      match CQLDecodeNum32 dst with
      | none => (Except.error RBError.truncated, dst)
      | some (dstCnt, _) =>
        if dstCnt = 0 then (Except.ok (), src)
        else (Except.ok (),
          CQLEncodeLength (dstCnt + srcCnt) ++ (dst ++ srcRest).drop 4)
    else (Except.ok (), dst)

/-- A trivial value codec over unit columns and unit values, satisfying the
spec contract; used to evaluate the development on concrete inputs. -/
def unitCodec : ValueCodec Unit Unit where
  encode := fun _ _ => []
  decode := fun _ rest => some ((), rest)

theorem CQLEncodeLength_length (n : Int) : (CQLEncodeLength n).length = 4 := rfl

theorem CQLDecodeNum32_encode (n : Int) (h1 : -2147483648 ≤ n) (h2 : n < 2147483648)
    (rest : List Byte) :
    CQLDecodeNum32 (CQLEncodeLength n ++ rest) = some (n, rest) := by
  have hmod : n % 4294967296 = if 0 ≤ n then n else n + 4294967296 := by
    split <;> omega
  simp only [CQLEncodeLength, CQLDecodeNum32, List.cons_append, List.nil_append]
  have hnn : 0 ≤ n % 4294967296 := by omega
  have hub : n % 4294967296 < 4294967296 := by omega
  set m := (n % 4294967296).toNat with hm
  have hm32 : m < 4294967296 := by omega
  have hrec : m / 16777216 % 256 * 16777216 + m / 65536 % 256 * 65536 +
      m / 256 % 256 * 256 + m % 256 = m := by omega
  simp only [hrec]
  split
  · simp only [Option.some.injEq, Prod.mk.injEq, and_true]
    omega
  · simp only [Option.some.injEq, Prod.mk.injEq, and_true]
    omega

theorem CQLDecodeNum32_bounds {buf rest : List Byte} {cnt : Int}
    (h : CQLDecodeNum32 buf = some (cnt, rest)) :
    -2147483648 ≤ cnt ∧ cnt < 2147483648 := by
  match buf with
  | [] => simp [CQLDecodeNum32] at h
  | [b0] => simp [CQLDecodeNum32] at h
  | [b0, b1] => simp [CQLDecodeNum32] at h
  | [b0, b1, b2] => simp [CQLDecodeNum32] at h
  | b0 :: b1 :: b2 :: b3 :: tl =>
    have h0 := b0.isLt
    have h1 := b1.isLt
    have h2 := b2.isLt
    have h3 := b3.isLt
    simp only [CQLDecodeNum32, Option.some.injEq, Prod.mk.injEq] at h
    obtain ⟨hc, -⟩ := h
    subst hc
    split <;> omega

theorem drop_four_CQLEncodeLength (n : Int) (l : List Byte) :
    (CQLEncodeLength n ++ l).drop 4 = l := by
  have h : (4 : Nat) = (CQLEncodeLength n).length := rfl
  rw [h, List.drop_left]

theorem unitCodec_roundTrip : CodecRoundTrip unitCodec := by
  intro t v rest
  cases v
  rfl

theorem deserializeValues_encode {T V : Type} {codec : ValueCodec T V}
    (hcodec : CodecRoundTrip codec) :
    ∀ (schema : List T) (vs : List V) (rest : List Byte),
      vs.length = schema.length →
      deserializeValues codec schema
        ((List.zipWith codec.encode schema vs).flatten ++ rest) = some (vs, rest) := by
  intro schema
  induction schema with
  | nil =>
    intro vs rest hlen
    have : vs = [] := List.length_eq_zero.mp (by simpa using hlen)
    subst this
    rfl
  | cons t ts ih =>
    intro vs rest hlen
    match vs with
    | [] => simp at hlen
    | v :: vs1 =>
      have hlen1 : vs1.length = ts.length := by simpa using hlen
      simp only [List.zipWith_cons_cons, List.flatten_cons, List.append_assoc]
      simp only [deserializeValues, hcodec t v, ih vs1 rest hlen1]

theorem QLRow.serialize_eq {T V : Type} (codec : ValueCodec T V) (r : QLRow T V) :
    QLRow.serialize codec r = (List.zipWith codec.encode r.schema r.values).flatten := rfl

theorem deserializeRows_encode {T V : Type} {codec : ValueCodec T V}
    (hcodec : CodecRoundTrip codec) (schema : List T) :
    ∀ (rs : List (QLRow T V)) (rest : List Byte),
      (∀ r ∈ rs, r.schema = schema ∧ r.values.length = schema.length) →
      deserializeRows codec schema rs.length
        ((rs.map (QLRow.serialize codec)).flatten ++ rest) = some (rs, rest) := by
  intro rs
  induction rs with
  | nil =>
    intro rest hvalid
    rfl
  | cons r rs1 ih =>
    intro rest hvalid
    obtain ⟨hsch, hlen⟩ := hvalid r (List.mem_cons_self r rs1)
    have hvalid1 : ∀ x ∈ rs1, x.schema = schema ∧ x.values.length = schema.length :=
      fun x hx => hvalid x (List.mem_cons_of_mem r hx)
    simp only [List.map_cons, List.flatten_cons, List.append_assoc, List.length_cons]
    have hrow : deserializeValues codec schema
        (QLRow.serialize codec r ++ ((rs1.map (QLRow.serialize codec)).flatten ++ rest)) =
        some (r.values, (rs1.map (QLRow.serialize codec)).flatten ++ rest) := by
      rw [QLRow.serialize_eq, hsch]
      exact deserializeValues_encode hcodec schema r.values _ (hsch ▸ hlen)
    simp only [deserializeRows, hrow, ih rest hvalid1]
    have : (⟨schema, r.values⟩ : QLRow T V) = r := by
      cases r
      simp_all
    rw [this]

theorem deserializeRows_length {T V : Type} {codec : ValueCodec T V} {schema : List T} :
    ∀ {n : Nat} {buf rest : List Byte} {rs : List (QLRow T V)},
      deserializeRows codec schema n buf = some (rs, rest) → rs.length = n := by
  intro n
  induction n with
  | zero =>
    intro buf rest rs h
    simp only [deserializeRows, Option.some.injEq, Prod.mk.injEq] at h
    obtain ⟨h1, -⟩ := h
    simp [← h1]
  | succ m ih =>
    intro buf rest rs h
    simp only [deserializeRows] at h
    cases hv : deserializeValues codec schema buf with
    | none => simp [hv] at h
    | some p =>
      obtain ⟨vs, rest1⟩ := p
      simp only [hv] at h
      cases hr : deserializeRows codec schema m rest1 with
      | none => simp [hr] at h
      | some q =>
        obtain ⟨rs2, rest2⟩ := q
        simp only [hr, Option.some.injEq, Prod.mk.injEq] at h
        obtain ⟨h1, -⟩ := h
        have hm := ih hr
        simp [← h1, hm]

theorem flatten_replicate_nil {α : Type} :
    ∀ n : Nat, (List.replicate n ([] : List α)).flatten = [] := by
  intro n
  induction n with
  | zero => rfl
  | succ m ih => simp [List.replicate_succ, ih]

theorem deserialize_serialize_aux {T V : Type} {codec : ValueCodec T V}
    (hcodec : CodecRoundTrip codec) (schema : List T) (rs : List (QLRow T V))
    (hvalid : ∀ r ∈ rs, r.schema = schema ∧ r.values.length = schema.length)
    (hcount : rs.length < 2147483648) :
    QLRowBlock.deserialize codec ⟨schema, []⟩
      (QLRowBlock.serialize codec ⟨schema, rs⟩) = Except.ok ⟨schema, rs⟩ := by
  have hdec : CQLDecodeNum32 (CQLEncodeLength ((rs.length : Int)) ++
      (rs.map (QLRow.serialize codec)).flatten) =
      some ((rs.length : Int), (rs.map (QLRow.serialize codec)).flatten) :=
    CQLDecodeNum32_encode _ (by omega) (by exact_mod_cast hcount) _
  have hrows := deserializeRows_encode hcodec schema rs [] hvalid
  rw [List.append_nil] at hrows
  simp only [QLRowBlock.serialize, QLRowBlock.deserialize, hdec,
    Int.toNat_natCast, hrows, List.nil_append, if_true]

theorem getRowCount_serialize_aux {T V : Type} (codec : ValueCodec T V)
    (schema : List T) (rs : List (QLRow T V)) (hcount : rs.length < 2147483648) :
    QLRowBlock.getRowCount (QLRowBlock.serialize codec ⟨schema, rs⟩) =
      Except.ok rs.length := by
  have hdec : CQLDecodeNum32 (CQLEncodeLength ((rs.length : Int)) ++
      (rs.map (QLRow.serialize codec)).flatten) =
      some ((rs.length : Int), (rs.map (QLRow.serialize codec)).flatten) :=
    CQLDecodeNum32_encode _ (by omega) (by exact_mod_cast hcount) _
  simp only [QLRowBlock.serialize, QLRowBlock.getRowCount, hdec]
  have hmod : ((rs.length : Int)) % 18446744073709551616 = (rs.length : Int) := by
    omega
  rw [hmod, Int.toNat_natCast]

/-- Claim C3: for every input buffer, `Deserialize` succeeds only if, after
decoding exactly the number of rows declared by the 4-byte count field, no
bytes remain in the cursor; any leftover byte yields the corruption error. -/
theorem deserialize_drains {T V : Type} (codec : ValueCodec T V)
    (b : QLRowBlock T V) (buf : List Byte) (cnt : Int) (rest0 rest : List Byte)
    (rs : List (QLRow T V))
    (hdec : CQLDecodeNum32 buf = some (cnt, rest0))
    (hrows : deserializeRows codec b.schema cnt.toNat rest0 = some (rs, rest)) :
    ((∃ out, QLRowBlock.deserialize codec b buf = Except.ok out) ↔ rest = []) ∧
    (rest ≠ [] → QLRowBlock.deserialize codec b buf = Except.error RBError.corruption) := by
  simp only [QLRowBlock.deserialize, hdec, hrows]
  constructor
  · constructor
    · rintro ⟨out, hout⟩
      by_contra hne
      rw [if_neg hne] at hout
      exact absurd hout (by simp)
    · intro h
      subst h
      exact ⟨_, by rw [if_pos rfl]⟩
  · intro hne
    rw [if_neg hne]

theorem deserialize_drains_witness :
    CQLDecodeNum32 ([0, 0, 0, 0, 7] : List Byte) = some (0, [7]) ∧
    deserializeRows unitCodec (⟨[], []⟩ : QLRowBlock Unit Unit).schema
      ((0 : Int)).toNat [7] = some ([], [7]) ∧
    (((∃ out, QLRowBlock.deserialize unitCodec (⟨[], []⟩ : QLRowBlock Unit Unit)
        [0, 0, 0, 0, 7] = Except.ok out) ↔ ([7] : List Byte) = []) ∧
      (([7] : List Byte) ≠ [] →
        QLRowBlock.deserialize unitCodec (⟨[], []⟩ : QLRowBlock Unit Unit)
          [0, 0, 0, 0, 7] = Except.error RBError.corruption)) :=
  ⟨rfl, rfl, deserialize_drains unitCodec ⟨[], []⟩ [0, 0, 0, 0, 7] 0 [7] [7] [] rfl rfl⟩

/-- Claim C5: a source whose count field decodes to 0 leaves the destination
bytes unchanged; a positive-count source merged into a destination whose
count field decodes to 0 makes the destination byte-for-byte equal to the
source. -/
theorem appendRowsData_zero_counts (src dst srcRest dstRest : List Byte) (srcCnt : Int) :
    (CQLDecodeNum32 src = some (0, srcRest) →
      QLRowBlock.appendRowsData src dst = (Except.ok (), dst)) ∧
    (CQLDecodeNum32 src = some (srcCnt, srcRest) → 0 < srcCnt →
      CQLDecodeNum32 dst = some (0, dstRest) →
      QLRowBlock.appendRowsData src dst = (Except.ok (), src)) := by
  constructor
  · intro h
    simp [QLRowBlock.appendRowsData, h]
  · intro h hpos hdst
    simp [QLRowBlock.appendRowsData, h, hpos, hdst]

theorem appendRowsData_zero_counts_witness :
    QLRowBlock.appendRowsData [0, 0, 0, 0] [0, 0, 0, 1, 9] =
      (Except.ok (), [0, 0, 0, 1, 9]) ∧
    QLRowBlock.appendRowsData [0, 0, 0, 1, 9] [0, 0, 0, 0] =
      (Except.ok (), [0, 0, 0, 1, 9]) :=
  ⟨(appendRowsData_zero_counts [0, 0, 0, 0] [0, 0, 0, 1, 9] [] [] 0).1 rfl,
   (appendRowsData_zero_counts [0, 0, 0, 1, 9] [0, 0, 0, 0] [9] [] 1).2 rfl
     (by decide) rfl⟩

/-- Claim C7: `AddRow` appends a copy of the given row to the block and
returns success, for every row — in particular with no check that the row's
schema matches the block's schema. -/
theorem addRow_unchecked {T V : Type} (b : QLRowBlock T V) (r : QLRow T V) :
    (QLRowBlock.addRow b r).1 = ⟨b.schema, b.rows ++ [r]⟩ ∧
    (QLRowBlock.addRow b r).2 = Except.ok () :=
  ⟨rfl, rfl⟩

/-- Claim C8: `Extend` appends one new row holding exactly one
default-initialized value slot per column of the block's schema, hands that
row back, and has no failure outcome. -/
theorem extend_default_row {T V : Type} (b : QLRowBlock T V) (d : V) :
    (QLRowBlock.extend b d).1 = ⟨b.schema, b.rows ++ [(QLRowBlock.extend b d).2]⟩ ∧
    (QLRowBlock.extend b d).2 = ⟨b.schema, List.replicate b.schema.length d⟩ ∧
    (QLRowBlock.extend b d).2.values.length = b.schema.length := by
  refine ⟨rfl, rfl, ?_⟩
  simp [QLRowBlock.extend]

/-- Claim C9: whenever `AppendRowsData` returns an error (either count field
failed to decode), the destination bytes are unchanged: all mutation happens
only after both count fields decode. -/
theorem appendRowsData_error_frame (src dst : List Byte) (e : RBError)
    (h : (QLRowBlock.appendRowsData src dst).1 = Except.error e) :
    (QLRowBlock.appendRowsData src dst).2 = dst := by
  cases hs : CQLDecodeNum32 src with
  | none => simp [QLRowBlock.appendRowsData, hs]
  | some p =>
    obtain ⟨srcCnt, srcRest⟩ := p
    by_cases hpos : 0 < srcCnt
    · cases hd : CQLDecodeNum32 dst with
      | none => simp [QLRowBlock.appendRowsData, hs, hpos, hd]
      | some q =>
        obtain ⟨dstCnt, dstRest⟩ := q
        exfalso
        by_cases hz : dstCnt = 0
        · simp [QLRowBlock.appendRowsData, hs, hpos, hd, hz] at h
        · simp [QLRowBlock.appendRowsData, hs, hpos, hd, hz] at h
    · simp [QLRowBlock.appendRowsData, hs, hpos]

theorem appendRowsData_error_frame_witness :
    (QLRowBlock.appendRowsData [] [0, 0, 0, 2]).1 = Except.error RBError.truncated ∧
    (QLRowBlock.appendRowsData [] [0, 0, 0, 2]).2 = [0, 0, 0, 2] :=
  ⟨rfl, appendRowsData_error_frame [] [0, 0, 0, 2] RBError.truncated rfl⟩

/-- Claim C10: a buffer whose count field decodes to a negative int32 makes
`Deserialize` append zero rows, succeeding exactly when nothing follows the
count field; a negative count is treated like zero, not rejected. -/
theorem deserialize_negative_count {T V : Type} (codec : ValueCodec T V)
    (b : QLRowBlock T V) (buf : List Byte) (cnt : Int) (rest : List Byte)
    (hdec : CQLDecodeNum32 buf = some (cnt, rest)) (hneg : cnt < 0) :
    (rest = [] → QLRowBlock.deserialize codec b buf = Except.ok b) ∧
    (rest ≠ [] → QLRowBlock.deserialize codec b buf = Except.error RBError.corruption) := by
  have htn : cnt.toNat = 0 := Int.toNat_of_nonpos (le_of_lt hneg)
  constructor
  · intro h
    subst h
    simp [QLRowBlock.deserialize, hdec, htn, deserializeRows]
  · intro h
    simp only [QLRowBlock.deserialize, hdec, htn, deserializeRows, if_neg h]

theorem deserialize_negative_count_witness :
    CQLDecodeNum32 ([255, 255, 255, 255] : List Byte) = some (-1, []) ∧
    ((-1 : Int) < 0) ∧
    QLRowBlock.deserialize unitCodec (⟨[], []⟩ : QLRowBlock Unit Unit)
      [255, 255, 255, 255] = Except.ok ⟨[], []⟩ :=
  ⟨by decide, by decide,
   (deserialize_negative_count unitCodec ⟨[], []⟩ [255, 255, 255, 255] (-1) []
     (by decide) (by decide)).1 rfl⟩

theorem serialize_replicate_empty (n : Nat) :
    QLRowBlock.serialize unitCodec
      (⟨[], List.replicate n ⟨[], []⟩⟩ : QLRowBlock Unit Unit) =
      CQLEncodeLength (n : Int) := by
  simp only [QLRowBlock.serialize, List.length_replicate, List.map_replicate]
  rw [show QLRow.serialize unitCodec (⟨[], []⟩ : QLRow Unit Unit) = [] from rfl,
    flatten_replicate_nil, List.append_nil]

/-- Claim C2 (amended): for every schema, every valid row sequence of fewer
than 2^31 rows round-trips: deserializing the serialization into a fresh
block reproduces the rows exactly. (The unbounded claim fails: a block of
2^31 rows narrows its count field to a negative int32.) -/
theorem serialize_roundTrip {T V : Type} (codec : ValueCodec T V)
    (hcodec : CodecRoundTrip codec) (schema : List T) (rs : List (QLRow T V))
    (hvalid : ∀ r ∈ rs, r.schema = schema ∧ r.values.length = schema.length)
    (hcount : rs.length < 2147483648) :
    QLRowBlock.deserialize codec ⟨schema, []⟩
      (QLRowBlock.serialize codec ⟨schema, rs⟩) = Except.ok ⟨schema, rs⟩ :=
  deserialize_serialize_aux hcodec schema rs hvalid hcount

theorem serialize_roundTrip_witness :
    CodecRoundTrip unitCodec ∧
    (∀ r ∈ ([⟨[], []⟩, ⟨[], []⟩] : List (QLRow Unit Unit)),
      r.schema = [] ∧ r.values.length = List.length ([] : List Unit)) ∧
    (([⟨[], []⟩, ⟨[], []⟩] : List (QLRow Unit Unit)).length < 2147483648) ∧
    QLRowBlock.deserialize unitCodec ⟨[], []⟩
      (QLRowBlock.serialize unitCodec ⟨[], [⟨[], []⟩, ⟨[], []⟩]⟩) =
      Except.ok ⟨[], [⟨[], []⟩, ⟨[], []⟩]⟩ :=
  ⟨unitCodec_roundTrip, by decide, by decide,
   serialize_roundTrip unitCodec unitCodec_roundTrip []
     [⟨[], []⟩, ⟨[], []⟩] (by decide) (by decide)⟩

/-- Claim C2 fails as stated: a valid (empty-schema) row sequence of 2^31
rows does not round-trip — its count field narrows to the negative int32
-2^31, so deserialization returns the empty block instead. -/
theorem serialize_roundTrip_cex :
    QLRowBlock.deserialize unitCodec (⟨[], []⟩ : QLRowBlock Unit Unit)
      (QLRowBlock.serialize unitCodec
        ⟨[], List.replicate 2147483648 ⟨[], []⟩⟩) = Except.ok ⟨[], []⟩ ∧
    (⟨[], []⟩ : QLRowBlock Unit Unit) ≠ ⟨[], List.replicate 2147483648 ⟨[], []⟩⟩ := by
  constructor
  · rw [serialize_replicate_empty]
    rfl
  · intro h
    have hlen := congrArg (fun b : QLRowBlock Unit Unit => b.rows.length) h
    simp only [List.length_replicate, List.length_nil] at hlen
    exact absurd hlen (by omega)

/-- Claim C6 (amended): for every block of fewer than 2^31 rows, the
serialization starts with a 4-byte big-endian int32 count field equal to the
row count, followed by the rows' encodings concatenated in block order, and
a zero-row block serializes to exactly 4 bytes. (The unbounded claim fails:
with 2^31 rows the count field is not equal to the row count.) -/
theorem serialize_count_field {T V : Type} (codec : ValueCodec T V)
    (b : QLRowBlock T V) (hcount : b.rows.length < 2147483648) :
    CQLDecodeNum32 (QLRowBlock.serialize codec b) =
      some ((b.rows.length : Int), (b.rows.map (QLRow.serialize codec)).flatten) ∧
    (QLRowBlock.serialize codec (⟨b.schema, []⟩ : QLRowBlock T V)).length = 4 := by
  constructor
  · simp only [QLRowBlock.serialize]
    exact CQLDecodeNum32_encode _ (by omega) (by exact_mod_cast hcount) _
  · rfl

theorem serialize_count_field_witness :
    ((⟨[], [⟨[], []⟩]⟩ : QLRowBlock Unit Unit).rows.length < 2147483648) ∧
    CQLDecodeNum32 (QLRowBlock.serialize unitCodec ⟨[], [⟨[], []⟩]⟩) =
      some (1, []) ∧
    (QLRowBlock.serialize unitCodec (⟨[], []⟩ : QLRowBlock Unit Unit)).length = 4 :=
  ⟨by decide,
   (serialize_count_field unitCodec ⟨[], [⟨[], []⟩]⟩ (by decide)).1,
   (serialize_count_field unitCodec ⟨[], [⟨[], []⟩]⟩ (by decide)).2⟩

/-- Claim C6 fails as stated: a block of 2^31 (empty-schema) rows serializes
with a count field decoding to -2^31, which is not the block's row count. -/
theorem serialize_count_field_cex :
    CQLDecodeNum32 (QLRowBlock.serialize unitCodec
      (⟨[], List.replicate 2147483648 ⟨[], []⟩⟩ : QLRowBlock Unit Unit)) =
      some (-2147483648, []) ∧
    ((-2147483648 : Int) ≠
      ((List.replicate 2147483648 (⟨[], []⟩ : QLRow Unit Unit)).length : Int)) := by
  constructor
  · rw [serialize_replicate_empty]
    decide
  · simp only [List.length_replicate]
    omega

/-- Claim C4 (amended): for every buffer whose count field decodes to a
non-negative int32, if `Deserialize` succeeds then `GetRowCount` returns
exactly the number of rows deserialization produced. (The unbounded claim
fails when the count field is negative: `Deserialize` produces zero rows
while `GetRowCount` returns the count converted to `size_t`.) -/
theorem getRowCount_matches_deserialize {T V : Type} (codec : ValueCodec T V)
    (schema : List T) (buf : List Byte) (cnt : Int) (rest : List Byte)
    (out : QLRowBlock T V)
    (hdec : CQLDecodeNum32 buf = some (cnt, rest)) (hnn : 0 ≤ cnt)
    (hok : QLRowBlock.deserialize codec (⟨schema, []⟩ : QLRowBlock T V) buf =
      Except.ok out) :
    QLRowBlock.getRowCount buf = Except.ok out.rows.length := by
  have hb := CQLDecodeNum32_bounds hdec
  simp only [QLRowBlock.deserialize, hdec] at hok
  cases hr : deserializeRows codec schema cnt.toNat rest with
  | none => simp [hr] at hok
  | some p =>
    obtain ⟨rs, rest1⟩ := p
    simp only [hr] at hok
    by_cases hrest : rest1 = []
    · rw [if_pos hrest] at hok
      have hout : out = ⟨schema, rs⟩ := by
        cases hok
        simp
      have hlen : rs.length = cnt.toNat := deserializeRows_length hr
      simp only [QLRowBlock.getRowCount, hdec, hout]
      have hmod : (cnt % 18446744073709551616).toNat = rs.length := by omega
      rw [hmod]
    · rw [if_neg hrest] at hok
      exact absurd hok (by simp)

theorem getRowCount_matches_deserialize_witness :
    CQLDecodeNum32 ([0, 0, 0, 0] : List Byte) = some (0, []) ∧
    ((0 : Int) ≤ 0) ∧
    QLRowBlock.deserialize unitCodec (⟨[], []⟩ : QLRowBlock Unit Unit)
      [0, 0, 0, 0] = Except.ok ⟨[], []⟩ ∧
    QLRowBlock.getRowCount ([0, 0, 0, 0] : List Byte) = Except.ok 0 :=
  ⟨rfl, by decide, rfl,
   getRowCount_matches_deserialize unitCodec [] [0, 0, 0, 0] 0 [] ⟨[], []⟩
     rfl (by decide) rfl⟩

/-- Claim C4 fails as stated: the encoded block of 2^32 - 1 (empty-schema)
rows is the bytes FF FF FF FF; `Deserialize` produces zero rows on it while
`GetRowCount` reports 2^64 - 1 (the int32 count -1 converted to `size_t`). -/
theorem getRowCount_matches_deserialize_cex :
    QLRowBlock.serialize unitCodec
      (⟨[], List.replicate 4294967295 ⟨[], []⟩⟩ : QLRowBlock Unit Unit) =
      [255, 255, 255, 255] ∧
    QLRowBlock.getRowCount ([255, 255, 255, 255] : List Byte) =
      Except.ok 18446744073709551615 ∧
    QLRowBlock.deserialize unitCodec (⟨[], []⟩ : QLRowBlock Unit Unit)
      [255, 255, 255, 255] = Except.ok ⟨[], []⟩ ∧
    ((18446744073709551615 : Nat) ≠ (⟨[], []⟩ : QLRowBlock Unit Unit).rows.length) := by
  refine ⟨?_, ?_, ?_, ?_⟩
  · rw [serialize_replicate_empty]
    decide
  · rfl
  · rfl
  · decide

/-- Claim C1 (amended): for two encoded blocks A (a rows) and C (c rows) on
the same schema with a, c > 0 and a + c < 2^31, `AppendRowsData(A, into=C)`
succeeds and turns C's bytes into exactly the serialization of C's rows
followed by A's rows; deserializing the result yields rows(C) ++ rows(A) and
`GetRowCount` on it returns a + c. (The unbounded claim fails when a + c
reaches 2^31 and the int32 count field overflows.) -/
theorem appendRowsData_merge {T V : Type} (codec : ValueCodec T V)
    (hcodec : CodecRoundTrip codec) (schema : List T)
    (rowsA rowsC : List (QLRow T V))
    (hA : ∀ r ∈ rowsA, r.schema = schema ∧ r.values.length = schema.length)
    (hC : ∀ r ∈ rowsC, r.schema = schema ∧ r.values.length = schema.length)
    (ha : 0 < rowsA.length) (hc : 0 < rowsC.length)
    (hsum : rowsA.length + rowsC.length < 2147483648) :
    QLRowBlock.appendRowsData (QLRowBlock.serialize codec ⟨schema, rowsA⟩)
        (QLRowBlock.serialize codec ⟨schema, rowsC⟩) =
      (Except.ok (), QLRowBlock.serialize codec ⟨schema, rowsC ++ rowsA⟩) ∧
    QLRowBlock.deserialize codec ⟨schema, []⟩
        (QLRowBlock.appendRowsData (QLRowBlock.serialize codec ⟨schema, rowsA⟩)
          (QLRowBlock.serialize codec ⟨schema, rowsC⟩)).2 =
      Except.ok ⟨schema, rowsC ++ rowsA⟩ ∧
    QLRowBlock.getRowCount
        (QLRowBlock.appendRowsData (QLRowBlock.serialize codec ⟨schema, rowsA⟩)
          (QLRowBlock.serialize codec ⟨schema, rowsC⟩)).2 =
      Except.ok (rowsA.length + rowsC.length) := by
  have hdecA : CQLDecodeNum32 (QLRowBlock.serialize codec ⟨schema, rowsA⟩) =
      some ((rowsA.length : Int), (rowsA.map (QLRow.serialize codec)).flatten) := by
    simp only [QLRowBlock.serialize]
    exact CQLDecodeNum32_encode _ (by omega)
      (by exact_mod_cast (by omega : rowsA.length < 2147483648)) _
  have hdecC : CQLDecodeNum32 (QLRowBlock.serialize codec ⟨schema, rowsC⟩) =
      some ((rowsC.length : Int), (rowsC.map (QLRow.serialize codec)).flatten) := by
    simp only [QLRowBlock.serialize]
    exact CQLDecodeNum32_encode _ (by omega)
      (by exact_mod_cast (by omega : rowsC.length < 2147483648)) _
  have hvalid : ∀ r ∈ rowsC ++ rowsA, r.schema = schema ∧
      r.values.length = schema.length := by
    intro r hr
    rcases List.mem_append.mp hr with h | h
    exacts [hC r h, hA r h]
  have hcnt : (rowsC ++ rowsA).length < 2147483648 := by
    rw [List.length_append]
    omega
  have hmain : QLRowBlock.appendRowsData (QLRowBlock.serialize codec ⟨schema, rowsA⟩)
      (QLRowBlock.serialize codec ⟨schema, rowsC⟩) =
      (Except.ok (), QLRowBlock.serialize codec ⟨schema, rowsC ++ rowsA⟩) := by
    simp only [QLRowBlock.appendRowsData, hdecA, hdecC]
    rw [if_pos (show (0 : Int) < (rowsA.length : Int) by exact_mod_cast ha)]
    rw [if_neg (show ¬((rowsC.length : Int) = 0) by
      intro h
      rw [Nat.cast_eq_zero] at h
      omega)]
    have hdrop : (QLRowBlock.serialize codec ⟨schema, rowsC⟩ ++
        (rowsA.map (QLRow.serialize codec)).flatten).drop 4 =
        (rowsC.map (QLRow.serialize codec)).flatten ++
          (rowsA.map (QLRow.serialize codec)).flatten := by
      simp only [QLRowBlock.serialize, List.append_assoc]
      exact drop_four_CQLEncodeLength _ _
    rw [hdrop]
    simp only [QLRowBlock.serialize, List.length_append, List.map_append,
      List.flatten_append, Nat.cast_add]
  refine ⟨hmain, ?_, ?_⟩
  · rw [hmain]
    exact deserialize_serialize_aux hcodec schema (rowsC ++ rowsA) hvalid hcnt
  · rw [hmain, getRowCount_serialize_aux codec schema (rowsC ++ rowsA) hcnt]
    rw [List.length_append, Nat.add_comm rowsC.length rowsA.length]

theorem appendRowsData_merge_witness :
    CodecRoundTrip unitCodec ∧
    (∀ r ∈ ([⟨[], []⟩] : List (QLRow Unit Unit)),
      r.schema = [] ∧ r.values.length = List.length ([] : List Unit)) ∧
    (0 < ([⟨[], []⟩] : List (QLRow Unit Unit)).length) ∧
    (([⟨[], []⟩] : List (QLRow Unit Unit)).length +
      ([⟨[], []⟩] : List (QLRow Unit Unit)).length < 2147483648) ∧
    (QLRowBlock.appendRowsData (QLRowBlock.serialize unitCodec ⟨[], [⟨[], []⟩]⟩)
        (QLRowBlock.serialize unitCodec ⟨[], [⟨[], []⟩]⟩) =
      (Except.ok (), QLRowBlock.serialize unitCodec ⟨[], [⟨[], []⟩, ⟨[], []⟩]⟩) ∧
    QLRowBlock.deserialize unitCodec ⟨[], []⟩
        (QLRowBlock.appendRowsData (QLRowBlock.serialize unitCodec ⟨[], [⟨[], []⟩]⟩)
          (QLRowBlock.serialize unitCodec ⟨[], [⟨[], []⟩]⟩)).2 =
      Except.ok ⟨[], [⟨[], []⟩, ⟨[], []⟩]⟩ ∧
    QLRowBlock.getRowCount
        (QLRowBlock.appendRowsData (QLRowBlock.serialize unitCodec ⟨[], [⟨[], []⟩]⟩)
          (QLRowBlock.serialize unitCodec ⟨[], [⟨[], []⟩]⟩)).2 =
      Except.ok 2) :=
  ⟨unitCodec_roundTrip, by decide, by decide, by decide,
   appendRowsData_merge unitCodec unitCodec_roundTrip [] [⟨[], []⟩] [⟨[], []⟩]
     (by decide) (by decide) (by decide) (by decide) (by decide)⟩

/-- Claim C1 fails as stated: merging an encoded 1-row block into an encoded
(2^31 - 1)-row block (empty schema) overflows the int32 count field to
-2^31; the merged bytes are 80 00 00 00, deserialization yields zero rows
instead of rows(C) ++ rows(A), and `GetRowCount` reports 2^64 - 2^31
instead of 2^31. -/
theorem appendRowsData_merge_cex :
    QLRowBlock.appendRowsData
        (QLRowBlock.serialize unitCodec (⟨[], [⟨[], []⟩]⟩ : QLRowBlock Unit Unit))
        (QLRowBlock.serialize unitCodec ⟨[], List.replicate 2147483647 ⟨[], []⟩⟩) =
      (Except.ok (), [128, 0, 0, 0]) ∧
    QLRowBlock.deserialize unitCodec (⟨[], []⟩ : QLRowBlock Unit Unit)
      [128, 0, 0, 0] = Except.ok ⟨[], []⟩ ∧
    QLRowBlock.getRowCount ([128, 0, 0, 0] : List Byte) =
      Except.ok 18446744071562067968 ∧
    ((18446744071562067968 : Nat) ≠ 1 + 2147483647) ∧
    ((⟨[], []⟩ : QLRowBlock Unit Unit).rows ≠
      List.replicate 2147483647 (⟨[], []⟩ : QLRow Unit Unit) ++ [⟨[], []⟩]) := by
  refine ⟨?_, rfl, rfl, by decide, ?_⟩
  · rw [serialize_replicate_empty]
    rfl
  · intro h
    rw [show (⟨[], []⟩ : QLRowBlock Unit Unit).rows = [] from rfl] at h
    have hlen := congrArg List.length h
    rw [List.length_append, List.length_replicate, List.length_cons,
      List.length_nil] at hlen
    omega

end YB
